import Mathlib

/-!
# Verification of the valigator composition algebra

Shallow embedding of the `valigator` Go package (files `validation.go` and
its context-flavored counterpart) and proofs about its composition algebra.

Modelling conventions:
* A Go `error` result is `Option Err` (`none` = nil = success).
* A Go interface value of type `Validator[T]` is modelled by the inductive
  `Validator T` below; a *nil interface value* in an input slice is modelled
  by wrapping in `Option`: slices passed to the factories are
  `List (Option (Validator T))`, where `none` is the nil interface value.
* `Func[T]` holds a function that may itself be nil: `Option (T → Option Err)`.
* The synchronous `Join` returns `&multiValidator[T]{...}` — a *pointer* to
  the aggregate struct — while `New` returns the struct by value. A Go type
  switch `case multiValidator[T]:` matches only the value form, so the two
  are distinguished here as `Validator.multi` (value, from `New`) and
  `Validator.multiPtr` (pointer, from `Join`). Their `Validate` behavior is
  identical (the method has a value receiver); only type-switch dispatch
  differs.
* `context.Context` is an opaque type parameter `Ctx` in the cancellable
  flavor.
-/

set_option autoImplicit false

namespace Valigator

/-- Error universe: `base k` stands for an opaque domain-specific error
value; `joined es` is the composite failure produced by the error
combinator from two or more failures. -/
inductive Err where
  | base : Nat → Err
  | joined : List Err → Err

/-- Modelled from the spec: the external "combine errors" collaborator
(§6).  The Go source calls the standard library's `errors.Join`, whose code
is not part of this repository's sources; the spec's contract for it is:
an empty sequence of failures yields success, a single failure is returned
unchanged, and two or more failures yield a single composite value that
preserves each original failure in order. -/
def errorsJoin : List Err → Option Err
  | [] => none
  | [e] => some e
  | es => some (Err.joined es)

/-- The `Validator[T]` interface, restricted to the package's own
implementations: `func` is `Func[T]` (its wrapped function may be nil),
`multi` is the struct value `multiValidator[T]` (as built by `New`),
`multiPtr` is the pointer `*multiValidator[T]` (as built by `Join`), and
`noOp` is `noOpValidator[T]`. -/
inductive Validator (T : Type) where
  | func : Option (T → Option Err) → Validator T
  | multi : List (Validator T) → Validator T
  | multiPtr : List (Validator T) → Validator T
  | noOp : Validator T

/-- Method `Func.Validate`: a nil wrapped function validates as success; otherwise
the call is delegated to the wrapped function unchanged. -/
def Func.Validate {T : Type} (fn : Option (T → Option Err)) (value : T) : Option Err :=
  match fn with
  | none => none
  | some f => f value

mutual

/-- Method `Validate` dispatch over the package's `Validator` implementations:
`Func.Validate` for `Func[T]`, the aggregate loop (followed by the error
combinator) for `multiValidator[T]` and `*multiValidator[T]` (the method
has a value receiver, so both behave alike), and success for
`noOpValidator[T]`. -/
def Validate {T : Type} : Validator T → T → Option Err
  | .func fn, value => Func.Validate fn value
  | .multi vs, value => errorsJoin (collectErrs vs value)
  | .multiPtr vs, value => errorsJoin (collectErrs vs value)
  | .noOp, _ => none

/-- The loop body of `multiValidator.Validate`: call each member's
`Validate` on the same input in order, appending each non-nil error. -/
def collectErrs {T : Type} : List (Validator T) → T → List Err
  | [], _ => []
  | m :: ms, value =>
    match Validate m value with
    | none => collectErrs ms value
    | some err => err :: collectErrs ms value

end

/-- Function `nonNilFunc`: drop every nil function from the input slice, preserving
order (the survivors are non-nil, so the result is a list of plain
functions). -/
def nonNilFunc {T : Type} : List (Option (T → Option Err)) → List (T → Option Err)
  | [] => []
  | none :: rest => nonNilFunc rest
  | some f :: rest => f :: nonNilFunc rest

/-- Function `nonNilValidators`: drop every nil interface value from the input
slice, preserving order (the survivors are non-nil, so the result is a
list of plain `Validator` values). -/
def nonNilValidators {T : Type} : List (Option (Validator T)) → List (Validator T)
  | [] => []
  | none :: rest => nonNilValidators rest
  | some v :: rest => v :: nonNilValidators rest

/-- Factory `New`: filter nil functions; 0 survivors is the no-op validator, 1
survivor is returned as a `Func[T]`, otherwise a `multiValidator[T]`
struct value holding each survivor wrapped as `Func[T]`, in order. -/
def New {T : Type} (validators : List (Option (T → Option Err))) : Validator T :=
  match nonNilFunc validators with
  | [] => .noOp
  | [f] => .func (some f)
  | fs => .multi (fs.map fun f => .func (some f))

/-- The loop body of `Join`: type-switch each survivor; a
`multiValidator[T]` struct *value* is spliced member-wise, anything else
(including a `*multiValidator[T]` pointer, which the value-type case does
not match) is appended whole. -/
def joinMembers {T : Type} : List (Validator T) → List (Validator T)
  | [] => []
  | .multi ms :: rest => ms ++ joinMembers rest
  | v :: rest => v :: joinMembers rest

/-- Factory `Join`: filter nil interface values; 0 survivors is the no-op
validator, 1 survivor is returned unchanged, otherwise a
`*multiValidator[T]` pointer whose member list is built by `joinMembers`. -/
def Join {T : Type} (validators : List (Option (Validator T))) : Validator T :=
  match nonNilValidators validators with
  | [] => .noOp
  | [v] => v
  | vs => .multiPtr (joinMembers vs)

/-- Factory `NoOp` returns the no-op validator. -/
def NoOp {T : Type} : Validator T := Validator.noOp

/-! ## The cancellable flavor

The context-flavored file mirrors `validation.go`, threading a
`context.Context` (here: an opaque type parameter `Ctx`) through every
call.  One structural difference from the synchronous flavor:
`JoinContext` builds and returns the `multiContextValidator[T]` struct *by
value* (no pointer), and its member type switch carries an explicit
`case nil: continue` branch.  To keep that branch representable, the
filtered slice keeps its elements as Go interface values
(`Option (ContextValidator Ctx T)`, `none` = nil interface value). -/

/-- The `ContextValidator[T]` interface, restricted to the package's own
implementations: `func` is `ContextFunc[T]` (its wrapped function may be
nil), `multi` is `multiContextValidator[T]` (built and passed by value
everywhere), and `noOp` is `noOpContextValidator[T]`. -/
inductive ContextValidator (Ctx T : Type) where
  | func : Option (Ctx → T → Option Err) → ContextValidator Ctx T
  | multi : List (ContextValidator Ctx T) → ContextValidator Ctx T
  | noOp : ContextValidator Ctx T

/-- Method `ContextFunc.Validate`: a nil wrapped function validates as success;
otherwise the call is delegated to the wrapped function unchanged, with
the context passed through. -/
def ContextFunc.Validate {Ctx T : Type} (fn : Option (Ctx → T → Option Err))
    (ctx : Ctx) (value : T) : Option Err :=
  match fn with
  | none => none
  | some f => f ctx value

mutual

/-- Method `Validate` dispatch over the package's `ContextValidator`
implementations, mirroring the synchronous `Validate`. -/
def ContextValidate {Ctx T : Type} : ContextValidator Ctx T → Ctx → T → Option Err
  | .func fn, ctx, value => ContextFunc.Validate fn ctx value
  | .multi vs, ctx, value => errorsJoin (collectCtxErrs vs ctx value)
  | .noOp, _, _ => none

/-- The loop body of `multiContextValidator.Validate`: call each member's
`Validate` with the same context and input in order, appending each
non-nil error. -/
def collectCtxErrs {Ctx T : Type} : List (ContextValidator Ctx T) → Ctx → T → List Err
  | [], _, _ => []
  | m :: ms, ctx, value =>
    match ContextValidate m ctx value with
    | none => collectCtxErrs ms ctx value
    | some err => err :: collectCtxErrs ms ctx value

end

/-- Function `nonNilContextFunc`: drop every nil function from the input slice,
preserving order. -/
def nonNilContextFunc {Ctx T : Type} :
    List (Option (Ctx → T → Option Err)) → List (Ctx → T → Option Err)
  | [] => []
  | none :: rest => nonNilContextFunc rest
  | some f :: rest => f :: nonNilContextFunc rest

/-- Function `nonNilContextValidator`: drop every nil interface value from the
input slice, preserving order.  The Go function returns a
`[]ContextValidator[T]` whose elements are still interface values, so the
result here stays a list of `Option` (all provably `some`; see the
unreachability theorem for `JoinContext`'s nil case). -/
def nonNilContextValidator {Ctx T : Type} :
    List (Option (ContextValidator Ctx T)) → List (Option (ContextValidator Ctx T))
  | [] => []
  | none :: rest => nonNilContextValidator rest
  | some v :: rest => some v :: nonNilContextValidator rest

/-- Factory `NewContext`: filter nil functions; 0 survivors is the no-op
validator, 1 survivor is returned as a `ContextFunc[T]`, otherwise a
`multiContextValidator[T]` holding each survivor wrapped as
`ContextFunc[T]`, in order. -/
def NewContext {Ctx T : Type} (validators : List (Option (Ctx → T → Option Err))) :
    ContextValidator Ctx T :=
  match nonNilContextFunc validators with
  | [] => .noOp
  | [f] => .func (some f)
  | fs => .multi (fs.map fun f => .func (some f))

/-- The loop body of `JoinContext`: type-switch each survivor; a nil
interface value is skipped (`case nil: continue`), a
`multiContextValidator[T]` is spliced member-wise, anything else is
appended whole. -/
def joinContextMembers {Ctx T : Type} :
    List (Option (ContextValidator Ctx T)) → List (ContextValidator Ctx T)
  | [] => []
  | none :: rest => joinContextMembers rest
  | some (.multi ms) :: rest => ms ++ joinContextMembers rest
  | some v :: rest => v :: joinContextMembers rest

/-- Factory `JoinContext`: filter nil interface values; 0 survivors is the no-op
validator, 1 survivor is returned unchanged, otherwise a
`multiContextValidator[T]` struct value whose member list is built by
`joinContextMembers`.  (The 1-survivor branch returns the interface value
`validators[0]`; a nil there is unreachable — see the unreachability
theorem — and is mapped to the no-op validator for totality.) -/
def JoinContext {Ctx T : Type} (validators : List (Option (ContextValidator Ctx T))) :
    ContextValidator Ctx T :=
  match nonNilContextValidator validators with
  | [] => .noOp
  | [o] => o.getD .noOp
  | vs => .multi (joinContextMembers vs)

/-- Factory `NoOpContext` returns the no-op context validator. -/
def NoOpContext {Ctx T : Type} : ContextValidator Ctx T := ContextValidator.noOp

/-! ## Spec-side definitions

These follow the spec's wording rather than the source's loops, so that
the factory claims can be stated as a comparison between the two. -/

/-- Follows the spec's words (§4.4, §8): drop every nil entry preserving
order; 0 survivors is the No-op kind, 1 survivor a Leaf wrapping that
single function, k ≥ 2 survivors an Aggregate of the Leaf-wrapped
survivors, in order. -/
def newShapeSpec {T : Type} (validators : List (Option (T → Option Err))) : Validator T :=
  match validators.filterMap id with
  | [] => .noOp
  | [f] => .func (some f)
  | fs => .multi (fs.map fun f => .func (some f))

/-- Follows the spec's words (§4.4, §8), cancellable flavor. -/
def newContextShapeSpec {Ctx T : Type} (validators : List (Option (Ctx → T → Option Err))) :
    ContextValidator Ctx T :=
  match validators.filterMap id with
  | [] => .noOp
  | [f] => .func (some f)
  | fs => .multi (fs.map fun f => .func (some f))

/-- Predicate `isMultiValue` is true exactly on a `multiValidator[T]` struct value
— the only form the `Join` type switch splices. -/
def isMultiValue {T : Type} : Validator T → Bool
  | .multi _ => true
  | _ => false

mutual

/-- The spec's Aggregate invariant (§3) on a single validator: every
aggregate (value or pointer form) reachable inside it has at least 2
members. -/
def AggOk {T : Type} : Validator T → Bool
  | .func _ => true
  | .noOp => true
  | .multi ms => decide (2 ≤ ms.length) && AggOkList ms
  | .multiPtr ms => decide (2 ≤ ms.length) && AggOkList ms

/-- Predicate `AggOk` over every element of a list. -/
def AggOkList {T : Type} : List (Validator T) → Bool
  | [] => true
  | m :: ms => AggOk m && AggOkList ms

end

mutual

/-- The spec's Aggregate invariant (§3) on a single context validator. -/
def CtxAggOk {Ctx T : Type} : ContextValidator Ctx T → Bool
  | .func _ => true
  | .noOp => true
  | .multi ms => decide (2 ≤ ms.length) && CtxAggOkList ms

/-- Predicate `CtxAggOk` over every element of a list. -/
def CtxAggOkList {Ctx T : Type} : List (ContextValidator Ctx T) → Bool
  | [] => true
  | m :: ms => CtxAggOk m && CtxAggOkList ms

end

/-- The `JoinContext` member loop restricted to non-nil survivors (no
`case nil` branch), used to state that the nil branch is dead code. -/
def joinContextMembersSome {Ctx T : Type} :
    List (ContextValidator Ctx T) → List (ContextValidator Ctx T)
  | [] => []
  | .multi ms :: rest => ms ++ joinContextMembersSome rest
  | v :: rest => v :: joinContextMembersSome rest

/-! ## Bridging lemmas -/

theorem nonNilFunc_eq_filterMap {T : Type} (l : List (Option (T → Option Err))) :
    nonNilFunc l = l.filterMap id := by
  induction l with
  | nil => rfl
  | cons hd tl ih => cases hd <;> simp [nonNilFunc, ih]

theorem nonNilValidators_eq_filterMap {T : Type} (l : List (Option (Validator T))) :
    nonNilValidators l = l.filterMap id := by
  induction l with
  | nil => rfl
  | cons hd tl ih => cases hd <;> simp [nonNilValidators, ih]

theorem nonNilContextFunc_eq_filterMap {Ctx T : Type}
    (l : List (Option (Ctx → T → Option Err))) :
    nonNilContextFunc l = l.filterMap id := by
  induction l with
  | nil => rfl
  | cons hd tl ih => cases hd <;> simp [nonNilContextFunc, ih]

theorem nonNilContextValidator_eq_map_some {Ctx T : Type}
    (l : List (Option (ContextValidator Ctx T))) :
    nonNilContextValidator l = (l.filterMap id).map some := by
  induction l with
  | nil => rfl
  | cons hd tl ih => cases hd <;> simp [nonNilContextValidator, ih]

theorem joinContextMembers_map_some {Ctx T : Type} (l : List (ContextValidator Ctx T)) :
    joinContextMembers (l.map some) = joinContextMembersSome l := by
  induction l with
  | nil => rfl
  | cons hd tl ih =>
    cases hd <;> simp [joinContextMembers, joinContextMembersSome, ih]

theorem collectErrs_eq_filterMap {T : Type} (vs : List (Validator T)) (value : T) :
    collectErrs vs value = (vs.map fun m => Validate m value).filterMap id := by
  induction vs with
  | nil => rfl
  | cons hd tl ih =>
    simp only [collectErrs, List.map_cons, List.filterMap_cons]
    cases Validate hd value <;> simp [ih]

theorem collectCtxErrs_eq_filterMap {Ctx T : Type}
    (vs : List (ContextValidator Ctx T)) (ctx : Ctx) (value : T) :
    collectCtxErrs vs ctx value = (vs.map fun m => ContextValidate m ctx value).filterMap id := by
  induction vs with
  | nil => rfl
  | cons hd tl ih =>
    simp only [collectCtxErrs, List.map_cons, List.filterMap_cons]
    cases ContextValidate hd ctx value <;> simp [ih]

theorem Join_eq_spec_filter {T : Type} (l : List (Option (Validator T))) :
    Join l = match l.filterMap id with
      | [] => .noOp
      | [v] => v
      | vs => .multiPtr (joinMembers vs) := by
  rw [Join, nonNilValidators_eq_filterMap]

theorem JoinContext_eq_spec_filter {Ctx T : Type}
    (l : List (Option (ContextValidator Ctx T))) :
    JoinContext l = match l.filterMap id with
      | [] => .noOp
      | [v] => v
      | vs => .multi (joinContextMembersSome vs) := by
  rw [JoinContext, nonNilContextValidator_eq_map_some]
  cases h : l.filterMap id with
  | nil => rfl
  | cons v vs =>
    cases vs with
    | nil => rfl
    | cons w ws =>
      have hm := joinContextMembers_map_some (v :: w :: ws)
      simp only [List.map_cons] at hm
      simp [hm]

theorem AggOkList_append {T : Type} (xs ys : List (Validator T)) :
    AggOkList (xs ++ ys) = (AggOkList xs && AggOkList ys) := by
  induction xs with
  | nil => simp [AggOkList]
  | cons hd tl ih => simp [AggOkList, ih, Bool.and_assoc]

theorem CtxAggOkList_append {Ctx T : Type} (xs ys : List (ContextValidator Ctx T)) :
    CtxAggOkList (xs ++ ys) = (CtxAggOkList xs && CtxAggOkList ys) := by
  induction xs with
  | nil => simp [CtxAggOkList]
  | cons hd tl ih => simp [CtxAggOkList, ih, Bool.and_assoc]

theorem joinMembers_ok {T : Type} (vs : List (Validator T))
    (h : AggOkList vs = true) : AggOkList (joinMembers vs) = true := by
  induction vs with
  | nil => exact h
  | cons hd tl ih =>
    simp only [AggOkList, Bool.and_eq_true] at h
    cases hd with
    | multi ms =>
      simp only [AggOk, Bool.and_eq_true] at h
      simp [joinMembers, AggOkList_append, h.1.2, ih h.2]
    | func fn => simp [joinMembers, AggOkList, AggOk, ih h.2]
    | multiPtr ms =>
      simp [joinMembers, AggOkList, h.1, ih h.2]
    | noOp => simp [joinMembers, AggOkList, AggOk, ih h.2]

theorem joinMembers_length {T : Type} (vs : List (Validator T))
    (h : AggOkList vs = true) : vs.length ≤ (joinMembers vs).length := by
  induction vs with
  | nil => simp
  | cons hd tl ih =>
    simp only [AggOkList, Bool.and_eq_true] at h
    cases hd with
    | multi ms =>
      simp only [AggOk, Bool.and_eq_true, decide_eq_true_eq] at h
      have h2 : 2 ≤ ms.length := h.1.1
      have := ih h.2
      simp only [joinMembers, List.length_cons, List.length_append]
      omega
    | func fn =>
      simpa [joinMembers] using ih h.2
    | multiPtr ms =>
      simpa [joinMembers] using ih h.2
    | noOp =>
      simpa [joinMembers] using ih h.2

theorem joinContextMembersSome_ok {Ctx T : Type} (vs : List (ContextValidator Ctx T))
    (h : CtxAggOkList vs = true) : CtxAggOkList (joinContextMembersSome vs) = true := by
  induction vs with
  | nil => exact h
  | cons hd tl ih =>
    simp only [CtxAggOkList, Bool.and_eq_true] at h
    cases hd with
    | multi ms =>
      simp only [CtxAggOk, Bool.and_eq_true] at h
      simp [joinContextMembersSome, CtxAggOkList_append, h.1.2, ih h.2]
    | func fn => simp [joinContextMembersSome, CtxAggOkList, CtxAggOk, ih h.2]
    | noOp => simp [joinContextMembersSome, CtxAggOkList, CtxAggOk, ih h.2]

theorem joinContextMembersSome_length {Ctx T : Type} (vs : List (ContextValidator Ctx T))
    (h : CtxAggOkList vs = true) : vs.length ≤ (joinContextMembersSome vs).length := by
  induction vs with
  | nil => simp
  | cons hd tl ih =>
    simp only [CtxAggOkList, Bool.and_eq_true] at h
    cases hd with
    | multi ms =>
      simp only [CtxAggOk, Bool.and_eq_true, decide_eq_true_eq] at h
      have h2 : 2 ≤ ms.length := h.1.1
      have := ih h.2
      simp only [joinContextMembersSome, List.length_cons, List.length_append]
      omega
    | func fn =>
      simpa [joinContextMembersSome] using ih h.2
    | noOp =>
      simpa [joinContextMembersSome] using ih h.2

/-- Number of direct members of an aggregate (0 for the other kinds). -/
def memberCount {T : Type} : Validator T → Nat
  | .multi ms => ms.length
  | .multiPtr ms => ms.length
  | _ => 0

theorem AggOkList_map_func {T : Type} (fs : List (T → Option Err)) :
    AggOkList (fs.map fun f => Validator.func (some f)) = true := by
  induction fs with
  | nil => rfl
  | cons hd tl ih => simp [AggOkList, AggOk, ih]

theorem CtxAggOkList_map_func {Ctx T : Type} (fs : List (Ctx → T → Option Err)) :
    CtxAggOkList (fs.map fun f => ContextValidator.func (some f)) = true := by
  induction fs with
  | nil => rfl
  | cons hd tl ih => simp [CtxAggOkList, CtxAggOk, ih]

theorem collectErrs_nil_of_all_success {T : Type} (vs : List (Validator T)) (value : T)
    (h : vs.all (fun m => (Validate m value).isNone) = true) :
    collectErrs vs value = [] := by
  induction vs with
  | nil => rfl
  | cons hd tl ih =>
    simp only [List.all_cons, Bool.and_eq_true, Option.isNone_iff_eq_none] at h
    simp [collectErrs, h.1, ih (by simpa using h.2)]

theorem collectCtxErrs_nil_of_all_success {Ctx T : Type}
    (vs : List (ContextValidator Ctx T)) (ctx : Ctx) (value : T)
    (h : vs.all (fun m => (ContextValidate m ctx value).isNone) = true) :
    collectCtxErrs vs ctx value = [] := by
  induction vs with
  | nil => rfl
  | cons hd tl ih =>
    simp only [List.all_cons, Bool.and_eq_true, Option.isNone_iff_eq_none] at h
    simp [collectCtxErrs, h.1, ih (by simpa using h.2)]

/-! ## Concrete validators for the concrete-input theorems -/

/-- Distinguishable leaf validators over `Nat`. -/
def leafA : Validator Nat := .func (some fun _ => some (.base 1))

def leafB : Validator Nat := .func (some fun _ => some (.base 2))

def leafC : Validator Nat := .func (some fun _ => some (.base 3))

def leafD : Validator Nat := .func (some fun _ => some (.base 4))

def leafE : Validator Nat := .func (some fun _ => some (.base 5))

def leafF : Validator Nat := .func (some fun _ => some (.base 6))

/-- Distinguishable context-flavored leaf validators over `Nat` with a
`Nat` context token. -/
def ctxLeafA : ContextValidator Nat Nat := .func (some fun _ _ => some (.base 1))

def ctxLeafB : ContextValidator Nat Nat := .func (some fun _ _ => some (.base 2))

def ctxLeafC : ContextValidator Nat Nat := .func (some fun _ _ => some (.base 3))

def ctxLeafD : ContextValidator Nat Nat := .func (some fun _ _ => some (.base 4))

def ctxLeafE : ContextValidator Nat Nat := .func (some fun _ _ => some (.base 5))

def ctxLeafF : ContextValidator Nat Nat := .func (some fun _ _ => some (.base 6))

/-! ## Claims -/

/-- C1: evaluated at the concrete input a..e (five distinct leaves), the
synchronous `Join (Join (a,b,c), d, e)` returns a 3-member aggregate whose
first member is itself the 3-member aggregate `Join (a,b,c)` — not the
flat 5-member aggregate `Join (a,b,c,d,e)` the claim requires: the inner
`Join` returns a `*multiValidator[T]` pointer, which the value-typed
`case multiValidator[T]:` of the flattening switch does not match.  The
cancellable flavor (where `JoinContext` returns the struct by value)
flattens as claimed at the same input. -/
theorem join_join_not_flattened :
    Join [some (Join [some leafA, some leafB, some leafC]), some leafD, some leafE]
      = Validator.multiPtr [Validator.multiPtr [leafA, leafB, leafC], leafD, leafE]
    ∧ Join [some leafA, some leafB, some leafC, some leafD, some leafE]
      = Validator.multiPtr [leafA, leafB, leafC, leafD, leafE]
    ∧ Join [some (Join [some leafA, some leafB, some leafC]), some leafD, some leafE]
      ≠ Join [some leafA, some leafB, some leafC, some leafD, some leafE]
    ∧ JoinContext [some (JoinContext [some ctxLeafA, some ctxLeafB, some ctxLeafC]),
        some ctxLeafD, some ctxLeafE]
      = ContextValidator.multi [ctxLeafA, ctxLeafB, ctxLeafC, ctxLeafD, ctxLeafE] := by
  refine ⟨rfl, rfl, fun h => absurd (congrArg memberCount h) (by decide), rfl⟩

/-- C2 counterexample: `Join (noop, c)` for the no-op validator and a
single leaf `c` returns a 2-member aggregate whose first member is the
no-op validator — the no-op is not dropped during normalization, it does
contribute a member, and the result is not `c` itself.  Likewise in the
cancellable flavor. -/
theorem join_noop_not_dropped :
    Join [some Validator.noOp, some leafF] = Validator.multiPtr [Validator.noOp, leafF]
    ∧ Join [some Validator.noOp, some leafF] ≠ leafF
    ∧ JoinContext [some ContextValidator.noOp, some ctxLeafF]
      = ContextValidator.multi [ContextValidator.noOp, ctxLeafF]
    ∧ JoinContext [some ContextValidator.noOp, some ctxLeafF] ≠ ctxLeafF := by
  refine ⟨rfl, ?_, rfl, ?_⟩
  · intro h
    rw [leafF] at h
    exact Validator.noConfusion h
  · intro h
    rw [ctxLeafF] at h
    exact ContextValidator.noConfusion h

/-- Predicate `isCtxMultiValue` is true exactly on a `multiContextValidator[T]`
value — the only form the `JoinContext` type switch splices. -/
def isCtxMultiValue {Ctx T : Type} : ContextValidator Ctx T → Bool
  | .multi _ => true
  | _ => false

/-- C2 amended: normalization in `Join`/`JoinContext` drops only nil
checkers — a No-op checker survives it and contributes exactly one member
to the resulting aggregate; `Join (noop, c)` with one further non-nil
checker `c` (not an aggregate struct value, which would be spliced)
returns the 2-member aggregate `[noop, c]`, not `c` itself. -/
theorem join_retains_noop {Ctx T : Type} (l : List (Option (Validator T)))
    (c : Validator T) (lc : List (Option (ContextValidator Ctx T)))
    (c' : ContextValidator Ctx T)
    (h : isMultiValue c = false) (h' : isCtxMultiValue c' = false) :
    nonNilValidators l = l.filterMap id
    ∧ Join [some .noOp, some c] = .multiPtr [.noOp, c]
    ∧ nonNilContextValidator lc = (lc.filterMap id).map some
    ∧ JoinContext [some .noOp, some c'] = .multi [.noOp, c'] := by
  refine ⟨nonNilValidators_eq_filterMap l, ?_, nonNilContextValidator_eq_map_some lc, ?_⟩
  · cases c with
    | multi ms => simp [isMultiValue] at h
    | func fn => rfl
    | multiPtr ms => rfl
    | noOp => rfl
  · cases c' with
    | multi ms => simp [isCtxMultiValue] at h'
    | func fn => rfl
    | noOp => rfl

/-- C2 amended, witness at a concrete input: the surviving checker is a
leaf function. -/
theorem join_retains_noop_witness :
    nonNilValidators [some leafF, none] = [some leafF, none].filterMap id
    ∧ Join [some .noOp, some leafF] = .multiPtr [.noOp, leafF]
    ∧ nonNilContextValidator [some ctxLeafF, none]
      = ([some ctxLeafF, none].filterMap id).map some
    ∧ JoinContext [some .noOp, some ctxLeafF] = .multi [.noOp, ctxLeafF] :=
  join_retains_noop [some leafF, none] leafF [some ctxLeafF, none] ctxLeafF rfl rfl

/-- C3: `New` and `NewContext` realize the spec's shape law: with k
non-nil survivors (order preserved), k = 0 yields the no-op kind, k = 1 a
single leaf wrapping that function, k ≥ 2 an aggregate of the k
leaf-wrapped survivors in order. -/
theorem new_matches_spec_shape {Ctx T : Type}
    (l : List (Option (T → Option Err))) (lc : List (Option (Ctx → T → Option Err))) :
    New l = newShapeSpec l ∧ NewContext lc = newContextShapeSpec lc := by
  constructor
  · unfold New newShapeSpec
    rw [nonNilFunc_eq_filterMap]
  · unfold NewContext newContextShapeSpec
    rw [nonNilContextFunc_eq_filterMap]

/-- C4: aggregate `Validate` (value and pointer form, and the cancellable
flavor) consults every member exactly once, in stored order, on the same
input (and token): the collected failures are exactly the non-success
member results in member order, and the overall outcome is the combinator
applied to them. -/
theorem aggregate_full_fanout {Ctx T : Type} (vs : List (Validator T)) (value : T)
    (cvs : List (ContextValidator Ctx T)) (ctx : Ctx) (cvalue : T) :
    Validate (.multi vs) value
      = errorsJoin ((vs.map fun m => Validate m value).filterMap id)
    ∧ Validate (.multiPtr vs) value
      = errorsJoin ((vs.map fun m => Validate m value).filterMap id)
    ∧ ContextValidate (.multi cvs) ctx cvalue
      = errorsJoin ((cvs.map fun m => ContextValidate m ctx cvalue).filterMap id) := by
  refine ⟨?_, ?_, ?_⟩ <;>
    simp [Validate, ContextValidate, collectErrs_eq_filterMap, collectCtxErrs_eq_filterMap]

/-- C5: when exactly one member of an aggregate invocation fails, the
overall outcome is that single failure value unchanged (per the spec's
contract for the external error combinator). -/
theorem single_failure_passthrough {Ctx T : Type} (vs : List (Validator T)) (value : T)
    (e : Err) (cvs : List (ContextValidator Ctx T)) (ctx : Ctx) (cvalue : T) (ce : Err)
    (h : (vs.map fun m => Validate m value).filterMap id = [e])
    (hc : (cvs.map fun m => ContextValidate m ctx cvalue).filterMap id = [ce]) :
    Validate (.multi vs) value = some e
    ∧ Validate (.multiPtr vs) value = some e
    ∧ ContextValidate (.multi cvs) ctx cvalue = some ce := by
  refine ⟨?_, ?_, ?_⟩ <;>
    simp [Validate, ContextValidate, collectErrs_eq_filterMap, collectCtxErrs_eq_filterMap,
      h, hc, errorsJoin]

/-- C5 witness: a two-member aggregate over `Nat` whose first member fails
with `base 7` and whose second member succeeds yields exactly `base 7`. -/
theorem single_failure_passthrough_witness :
    Validate (.multi [Validator.func (some fun _ => some (Err.base 7)),
        Validator.func (some fun _ => none)]) 0 = some (Err.base 7)
    ∧ Validate (.multiPtr [Validator.func (some fun _ => some (Err.base 7)),
        Validator.func (some fun _ => none)]) 0 = some (Err.base 7)
    ∧ ContextValidate
        ((.multi [ContextValidator.func (some fun _ _ => some (Err.base 8)),
          ContextValidator.func (some fun _ _ => none)]) : ContextValidator Nat Nat)
        0 0 = some (Err.base 8) :=
  single_failure_passthrough
    [Validator.func (some fun _ => some (Err.base 7)), Validator.func (some fun _ => none)]
    0 (Err.base 7)
    [ContextValidator.func (some fun _ _ => some (Err.base 8)),
      ContextValidator.func (some fun _ _ => none)]
    0 0 (Err.base 8)
    (by simp [Validate, Func.Validate])
    (by simp [ContextValidate, ContextFunc.Validate])

/-- C6: a leaf with a nil wrapped function checks as success; a leaf with
a non-nil wrapped function returns exactly that function's result,
unmodified, in both flavors (both through the `Func`/`ContextFunc` method
and through the interface dispatch). -/
theorem leaf_passthrough {Ctx T : Type} (f : T → Option Err) (v : T)
    (g : Ctx → T → Option Err) (ctx : Ctx) :
    Func.Validate none v = none
    ∧ Func.Validate (some f) v = f v
    ∧ Validate (.func none) v = none
    ∧ Validate (.func (some f)) v = f v
    ∧ ContextFunc.Validate none ctx v = none
    ∧ ContextFunc.Validate (some g) ctx v = g ctx v
    ∧ ContextValidate (.func none) ctx v = none
    ∧ ContextValidate (.func (some g)) ctx v = g ctx v := by
  refine ⟨rfl, rfl, ?_, ?_, rfl, rfl, ?_, ?_⟩ <;>
    simp [Validate, ContextValidate, Func.Validate, ContextFunc.Validate]

/-- C7: when exactly one non-nil checker survives filtering, `Join` and
`JoinContext` return that checker itself, unchanged. -/
theorem join_single_passthrough {Ctx T : Type} (l : List (Option (Validator T)))
    (v : Validator T) (lc : List (Option (ContextValidator Ctx T)))
    (cv : ContextValidator Ctx T)
    (h : l.filterMap id = [v]) (hc : lc.filterMap id = [cv]) :
    Join l = v ∧ JoinContext lc = cv := by
  constructor
  · rw [Join_eq_spec_filter, h]
  · rw [JoinContext_eq_spec_filter, hc]

/-- C7 witness: two nils and one no-op validator — the no-op comes back
unchanged. -/
theorem join_single_passthrough_witness :
    Join ([none, some .noOp, none] : List (Option (Validator Nat))) = .noOp
    ∧ JoinContext ([none, some .noOp, none] : List (Option (ContextValidator Nat Nat)))
      = .noOp :=
  join_single_passthrough [none, some .noOp, none] .noOp [none, some .noOp, none] .noOp
    rfl rfl

/-- C8: every aggregate produced by a factory has at least 2 members
(recursively), provided every checker fed to `Join`/`JoinContext` itself
satisfies that invariant — which all factory outputs do, and the
aggregate structs are unexported, so package clients cannot supply
anything else. -/
theorem factories_preserve_min_two_members {Ctx T : Type}
    (lf : List (Option (T → Option Err))) (lv : List (Option (Validator T)))
    (lcf : List (Option (Ctx → T → Option Err)))
    (lcv : List (Option (ContextValidator Ctx T)))
    (hv : AggOkList (lv.filterMap id) = true)
    (hcv : CtxAggOkList (lcv.filterMap id) = true) :
    AggOk (New lf) = true ∧ AggOk (Join lv) = true
    ∧ CtxAggOk (NewContext lcf) = true ∧ CtxAggOk (JoinContext lcv) = true := by
  refine ⟨?_, ?_, ?_, ?_⟩
  · unfold New
    rw [nonNilFunc_eq_filterMap]
    cases h : lf.filterMap id with
    | nil => simp [AggOk]
    | cons f fs =>
      cases fs with
      | nil => simp [AggOk]
      | cons g gs =>
        have hok := AggOkList_map_func (f :: g :: gs)
        simp only [List.map_cons] at hok
        simp [AggOk, hok]
  · rw [Join_eq_spec_filter]
    cases h : lv.filterMap id with
    | nil => simp [AggOk]
    | cons v vs =>
      rw [h] at hv
      cases vs with
      | nil =>
        simp only [AggOkList, Bool.and_eq_true] at hv
        simpa using hv.1
      | cons w ws =>
        have hlen := joinMembers_length (v :: w :: ws) hv
        have hok := joinMembers_ok (v :: w :: ws) hv
        simp only [List.length_cons] at hlen
        have h2 : 2 ≤ (joinMembers (v :: w :: ws)).length := by omega
        simp [AggOk, hok, h2]
  · unfold NewContext
    rw [nonNilContextFunc_eq_filterMap]
    cases h : lcf.filterMap id with
    | nil => simp [CtxAggOk]
    | cons f fs =>
      cases fs with
      | nil => simp [CtxAggOk]
      | cons g gs =>
        have hok := CtxAggOkList_map_func (f :: g :: gs)
        simp only [List.map_cons] at hok
        simp [CtxAggOk, hok]
  · rw [JoinContext_eq_spec_filter]
    cases h : lcv.filterMap id with
    | nil => simp [CtxAggOk]
    | cons v vs =>
      rw [h] at hcv
      cases vs with
      | nil =>
        simp only [CtxAggOkList, Bool.and_eq_true] at hcv
        simpa using hcv.1
      | cons w ws =>
        have hlen := joinContextMembersSome_length (v :: w :: ws) hcv
        have hok := joinContextMembersSome_ok (v :: w :: ws) hcv
        simp only [List.length_cons] at hlen
        have h2 : 2 ≤ (joinContextMembersSome (v :: w :: ws)).length := by omega
        simp [CtxAggOk, hok, h2]

/-- C8 witness: concrete factory calls over `Nat`, each producing a
2-member aggregate satisfying the invariant. -/
theorem factories_preserve_min_two_members_witness :
    AggOk (New [some (fun _ => none : Nat → Option Err), some fun _ => some (Err.base 1)])
      = true
    ∧ AggOk (Join [some Validator.noOp, some (Validator.func (none : Option (Nat → Option Err)))])
      = true
    ∧ CtxAggOk (NewContext [some (fun _ _ => none : Nat → Nat → Option Err),
        some fun _ _ => some (Err.base 1)]) = true
    ∧ CtxAggOk (JoinContext [some ContextValidator.noOp,
        some (ContextValidator.func (none : Option (Nat → Nat → Option Err)))]) = true :=
  factories_preserve_min_two_members
    [some (fun _ => none : Nat → Option Err), some fun _ => some (Err.base 1)]
    [some Validator.noOp, some (Validator.func none)]
    [some (fun _ _ => none : Nat → Nat → Option Err), some fun _ _ => some (Err.base 1)]
    [some ContextValidator.noOp, some (ContextValidator.func none)]
    (by simp [AggOkList, AggOk])
    (by simp [CtxAggOkList, CtxAggOk])

/-- C9: the no-op validator checks as success on every input (and token),
and an aggregate invocation in which zero members fail checks as success,
in both flavors and both aggregate forms. -/
theorem noop_and_zero_failures_succeed {Ctx T : Type} (v : T) (ctx : Ctx)
    (vs : List (Validator T)) (cvs : List (ContextValidator Ctx T))
    (h : vs.all (fun m => (Validate m v).isNone) = true)
    (hc : cvs.all (fun m => (ContextValidate m ctx v).isNone) = true) :
    Validate .noOp v = none
    ∧ ContextValidate .noOp ctx v = none
    ∧ Validate (.multi vs) v = none
    ∧ Validate (.multiPtr vs) v = none
    ∧ ContextValidate (.multi cvs) ctx v = none := by
  have h1 := collectErrs_nil_of_all_success vs v h
  have h2 := collectCtxErrs_nil_of_all_success cvs ctx v hc
  refine ⟨?_, ?_, ?_, ?_, ?_⟩ <;> simp [Validate, ContextValidate, h1, h2, errorsJoin]

/-- C9 witness: a two-member aggregate over `Nat` whose members both
succeed (one no-op validator, one nil-function leaf). -/
theorem noop_and_zero_failures_succeed_witness :
    Validate (Validator.noOp : Validator Nat) 0 = none
    ∧ ContextValidate (ContextValidator.noOp : ContextValidator Nat Nat) 0 0 = none
    ∧ Validate (.multi [Validator.noOp, Validator.func (none : Option (Nat → Option Err))]) 0
      = none
    ∧ Validate (.multiPtr [Validator.noOp, Validator.func (none : Option (Nat → Option Err))]) 0
      = none
    ∧ ContextValidate (.multi [ContextValidator.noOp,
        ContextValidator.func (none : Option (Nat → Nat → Option Err))]) 0 0 = none :=
  noop_and_zero_failures_succeed 0 0
    [Validator.noOp, Validator.func none]
    [ContextValidator.noOp, ContextValidator.func none]
    (by simp [Validate, Func.Validate])
    (by simp [ContextValidate, ContextFunc.Validate])

/-- C10: the `case nil` branch of `JoinContext`'s member type switch is
dead code: after `nonNilContextValidator` has filtered the input, every
surviving element is a non-nil interface value, so the member loop (with
its nil branch) computes exactly what the nil-free loop computes. -/
theorem joinContext_nil_branch_dead {Ctx T : Type}
    (l : List (Option (ContextValidator Ctx T))) :
    (nonNilContextValidator l).all Option.isSome = true
    ∧ joinContextMembers (nonNilContextValidator l)
      = joinContextMembersSome (l.filterMap id) := by
  constructor
  · rw [nonNilContextValidator_eq_map_some]
    simp
  · rw [nonNilContextValidator_eq_map_some, joinContextMembers_map_some]

end Valigator
